import Mathlib

/-!
Shallow embedding of the `ecs-js` entity-component-system core
(`src/engine/src/core/entity-manager.js`, `src/engine/src/systems/movement-system.js`,
`src/engine/src/systems/ai-system.js`) together with proofs about the behaviour of
entity creation/destruction, component mutation, queries, lifecycle notification,
the movement integrator and the AI state machine.

JavaScript `Map` objects preserve insertion order; `set` on an existing key updates
the entry in place, `delete` removes it.  We model them as association lists with
exactly those semantics.  Mutating operations additionally return the list of
lifecycle hook invocations they perform (one event per registered system whose
hook is present, in registration order), so that notification behaviour can be
stated and proved.  Wall-clock reads (`Date.now()`) and `Math.random()` draws are
passed in as explicit parameters.  JavaScript numbers are modelled as real numbers.
-/

namespace ECS

/-- Association list modelling a JavaScript `Map`: insertion order preserved,
`set` updates an existing key in place, `delete` removes the entry. -/
abbrev AList (κ δ : Type) : Type := List (κ × δ)

namespace AList

variable {κ δ : Type} [DecidableEq κ]

/-- JS `Map.prototype.set`: replace in place if the key is present, else append. -/
def mset : AList κ δ → κ → δ → AList κ δ
  | [], k, v => [(k, v)]
  | (k', v') :: rest, k, v =>
      if k = k' then (k, v) :: rest else (k', v') :: mset rest k v

/-- JS `Map.prototype.get`: first entry with the key, if any. -/
def mget : AList κ δ → κ → Option δ
  | [], _ => none
  | (k', v') :: rest, k => if k = k' then some v' else mget rest k

/-- JS `Map.prototype.delete`: remove the entry with the key, if any. -/
def mdel : AList κ δ → κ → AList κ δ
  | [], _ => []
  | (k', v') :: rest, k => if k = k' then rest else (k', v') :: mdel rest k

/-- JS `Map.prototype.has`. -/
def mhas (l : AList κ δ) (k : κ) : Bool := (mget l k).isSome

/-- Keys of the map in insertion order. -/
def mkeys (l : AList κ δ) : List κ := l.map Prod.fst

end AList

open AList

/-- A registered system, reduced to which lifecycle hooks it implements.
In the JavaScript source a system is an object and the manager probes
`system.onComponentAdded` / `system.onComponentRemoved` / `system.onEntityDestroyed`
for presence before calling them. -/
structure System where
  hasOnComponentAdded : Bool
  hasOnComponentRemoved : Bool
  hasOnEntityDestroyed : Bool
deriving DecidableEq, Repr

/-- A lifecycle hook invocation: which system (by registration index) was called
with which arguments. -/
inductive Event (δ : Type) where
  | componentAdded (sysIdx entityId : Nat) (variant : String) (data : δ)
  | componentRemoved (sysIdx entityId : Nat) (variant : String)
  | entityDestroyed (sysIdx entityId : Nat)
deriving DecidableEq, Repr

/-- State of `EntityManager` (entity-manager.js, constructor): `entities` maps
entity id to its component map (variant name → data), `nextEntityId` starts at 1,
`componentTypes` is the insertion-ordered set of seen variant names, `systems`
the registration-ordered system list. -/
structure EntityManager (δ : Type) where
  entities : AList Nat (AList String δ)
  nextEntityId : Nat
  componentTypes : List String
  systems : List System
deriving DecidableEq

/-- Fresh manager as built by the constructor. -/
def initial (δ : Type) : EntityManager δ :=
  { entities := [], nextEntityId := 1, componentTypes := [], systems := [] }

/-- JS `Set.prototype.add`: append if absent. -/
def ctAdd (l : List String) (v : String) : List String :=
  if v ∈ l then l else l ++ [v]

/-- The `createEntity(id = null)` method.  `id || this.nextEntityId++` uses the
supplied id only when it is truthy (a nonzero number); for `null`/`0` the
auto-increment allocator is used (and only then incremented). -/
def createEntity (δ : Type) (s : EntityManager δ) (id : Option Nat) : Nat × EntityManager δ :=
  let falsy : Bool :=
    match id with
    | none => true
    | some n => n == 0
  if falsy then
    (s.nextEntityId,
      { s with
          nextEntityId := s.nextEntityId + 1
          entities := mset s.entities s.nextEntityId [] })
  else
    (id.getD 0, { s with entities := mset s.entities (id.getD 0) [] })

/-- Events fired by `destroyEntity`: one `onEntityDestroyed` call per registered
system implementing the hook, in registration order, unconditionally. -/
def destroyedEvents (δ : Type) (systems : List System) (entityId : Nat) : List (Event δ) :=
  systems.enum.filterMap fun p =>
    if p.2.hasOnEntityDestroyed then some (Event.entityDestroyed p.1 entityId) else none

/-- The `destroyEntity(entityId)` method: delete the entity (no-op when absent),
then notify every system, with no check that the entity existed. -/
def destroyEntity (δ : Type) (s : EntityManager δ) (entityId : Nat) :
    EntityManager δ × List (Event δ) :=
  ({ s with entities := mdel s.entities entityId },
   destroyedEvents δ s.systems entityId)

/-- The `addComponent(entityId, componentType, componentData)` method: throws
when the entity does not exist; otherwise records the variant name, stores the
data (overwriting any present entry for the variant, with no removal event) and
fires one `onComponentAdded` per hooked system in registration order. -/
def addComponent (δ : Type) (s : EntityManager δ) (entityId : Nat)
    (componentType : String) (componentData : δ) :
    Except String (EntityManager δ × List (Event δ)) :=
  match mget s.entities entityId with
  | none => Except.error ("Entity " ++ toString entityId ++ " does not exist")
  | some comps =>
      Except.ok
        ({ s with
            componentTypes := ctAdd s.componentTypes componentType
            entities := mset s.entities entityId (mset comps componentType componentData) },
         s.systems.enum.filterMap fun p =>
           if p.2.hasOnComponentAdded then
             some (Event.componentAdded p.1 entityId componentType componentData)
           else none)

/-- The `removeComponent(entityId, componentType)` method: silently returns when
the entity does not exist; otherwise deletes the variant entry from the entity's
component map (a no-op on the map when absent) and then fires one
`onComponentRemoved` per hooked system in registration order — the notification
is not conditioned on the variant having been present. -/
def removeComponent (δ : Type) (s : EntityManager δ) (entityId : Nat)
    (componentType : String) : EntityManager δ × List (Event δ) :=
  match mget s.entities entityId with
  | none => (s, [])
  | some comps =>
      ({ s with entities := mset s.entities entityId (mdel comps componentType) },
       s.systems.enum.filterMap fun p =>
         if p.2.hasOnComponentRemoved then
           some (Event.componentRemoved p.1 entityId componentType)
         else none)

/-- The `getComponent(entityId, componentType)` method. -/
def getComponent (δ : Type) (s : EntityManager δ) (entityId : Nat)
    (componentType : String) : Option δ :=
  match mget s.entities entityId with
  | some comps => mget comps componentType
  | none => none

/-- The `hasComponent(entityId, componentType)` method. -/
def hasComponent (δ : Type) (s : EntityManager δ) (entityId : Nat)
    (componentType : String) : Bool :=
  match mget s.entities entityId with
  | some comps => mhas comps componentType
  | none => false

/-- The `getEntitiesWithComponents(...componentTypes)` method: ids of entities,
in the entity map's insertion order, whose component map has every listed
variant; recomputed from the current state on each call. -/
def getEntitiesWithComponents (δ : Type) (s : EntityManager δ)
    (componentTypes : List String) : List Nat :=
  s.entities.filterMap fun p =>
    if componentTypes.all fun t => (mget p.2 t).isSome then some p.1 else none

/-- An entity-lifecycle operation on the store: `createEntity` (with its optional
caller-supplied id) or `destroyEntity`. -/
inductive StoreOp where
  | create (id : Option Nat)
  | destroy (id : Nat)
deriving DecidableEq, Repr

/-- Apply one lifecycle operation to the store state. -/
def applyOp (δ : Type) (s : EntityManager δ) : StoreOp → EntityManager δ
  | StoreOp.create id => (createEntity δ s id).2
  | StoreOp.destroy id => (destroyEntity δ s id).1

/-- Run a sequence of lifecycle operations from a starting state. -/
def runOps (δ : Type) (s : EntityManager δ) : List StoreOp → EntityManager δ
  | [] => s
  | op :: rest => runOps δ (applyOp δ s op) rest

/-- Whether every create in the sequence lets the store auto-allocate the id
(the supplied id, if any, is falsy). -/
def autoOnly (ops : List StoreOp) : Bool :=
  ops.all fun op =>
    match op with
    | StoreOp.create (some n) => n == 0
    | _ => true

/-- Allocator invariant: ids of live entities are positive, below the
auto-increment counter, and pairwise distinct. -/
def StoreInv (δ : Type) (s : EntityManager δ) : Prop :=
  0 < s.nextEntityId ∧
  (∀ id ∈ mkeys s.entities, 0 < id ∧ id < s.nextEntityId) ∧
  (mkeys s.entities).Nodup

/-- Position / orientation / scale triple (components.js `createTransformComponent`).
Coordinates are JavaScript numbers, modelled as reals. -/
structure Vec3 where
  x : ℝ
  y : ℝ
  z : ℝ

/-- The `transform` component. -/
structure Transform where
  position : Vec3
  rotation : Vec3
  scale : Vec3

/-- The `movement` component (components.js `createMovementComponent`). -/
structure Movement where
  velocity : Vec3
  speed : ℝ
  hoverHeight : ℝ
  groundY : ℝ

/-- The `ai` component (components.js `createAIComponent`).  `behavior` and
`state` are the strings the source switches on; timers are in milliseconds. -/
structure AI where
  behavior : String
  targetPosition : Option Vec3
  lastDirectionChange : ℝ
  directionChangeInterval : ℝ
  wanderRadius : ℝ
  seekRange : ℝ
  state : String

namespace MovementSystem

/-- The `applyForce(entityId, force)` primitive, acting on the entity's present
`movement` component: `velocity += force`, componentwise. -/
noncomputable def applyForce (movement : Movement) (force : Vec3) : Movement :=
  { movement with
      velocity :=
        ⟨movement.velocity.x + force.x,
         movement.velocity.y + force.y,
         movement.velocity.z + force.z⟩ }

/-- The `moveTowards(entityId, targetPosition, deltaTime)` primitive for an
entity holding both `transform` and `movement`.  It returns the (unchanged)
transform, the possibly-updated movement, and the arrival flag: planar distance
above `0.1` applies `direction * speed` as a force and reports `false`;
otherwise nothing is applied and it reports `true`.  `deltaTime` is accepted
and unused, as in the source. -/
noncomputable def moveTowards (transform : Transform) (movement : Movement)
    (targetPosition : Vec3) (deltaTime : ℝ) : Transform × Movement × Bool :=
  let _ := deltaTime
  let dx := targetPosition.x - transform.position.x
  let dz := targetPosition.z - transform.position.z
  let distance := Real.sqrt (dx * dx + dz * dz)
  if 0.1 < distance then
    let directionX := dx / distance
    let directionZ := dz / distance
    let force : Vec3 := ⟨directionX * movement.speed, 0, directionZ * movement.speed⟩
    (transform, applyForce movement force, false)
  else
    (transform, movement, true)

/-- First wrapping loop of `lerpAngle`: `while (diff > Math.PI) diff -= 2 * Math.PI`. -/
noncomputable def wrapDown (d : ℝ) : ℝ :=
  if h : Real.pi < d then wrapDown (d - 2 * Real.pi) else d
termination_by (⌈(d - Real.pi) / (2 * Real.pi)⌉).toNat
decreasing_by
  have hpi : (0 : ℝ) < Real.pi := Real.pi_pos
  have h2pi : (0 : ℝ) < 2 * Real.pi := by linarith
  have hrw : (d - 2 * Real.pi - Real.pi) / (2 * Real.pi)
      = (d - Real.pi) / (2 * Real.pi) - 1 := by
    field_simp
    ring
  have hpos : 0 < (d - Real.pi) / (2 * Real.pi) := by
    apply div_pos _ h2pi
    linarith
  have hceil : 0 < ⌈(d - Real.pi) / (2 * Real.pi)⌉ := Int.ceil_pos.mpr hpos
  rw [hrw, Int.ceil_sub_one]
  omega

/-- Second wrapping loop of `lerpAngle`: `while (diff < -Math.PI) diff += 2 * Math.PI`. -/
noncomputable def wrapUp (d : ℝ) : ℝ :=
  if h : d < -Real.pi then wrapUp (d + 2 * Real.pi) else d
termination_by (⌈(-Real.pi - d) / (2 * Real.pi)⌉).toNat
decreasing_by
  have hpi : (0 : ℝ) < Real.pi := Real.pi_pos
  have h2pi : (0 : ℝ) < 2 * Real.pi := by linarith
  have hrw : (-Real.pi - (d + 2 * Real.pi)) / (2 * Real.pi)
      = (-Real.pi - d) / (2 * Real.pi) - 1 := by
    field_simp
    ring
  have hpos : 0 < (-Real.pi - d) / (2 * Real.pi) := by
    apply div_pos _ h2pi
    linarith
  have hceil : 0 < ⌈(-Real.pi - d) / (2 * Real.pi)⌉ := Int.ceil_pos.mpr hpos
  rw [hrw, Int.ceil_sub_one]
  omega

/-- The `lerpAngle(current, target, factor)` helper: wrap the difference to the
shortest signed angle, then interpolate linearly by `factor`. -/
noncomputable def lerpAngle (current target factor : ℝ) : ℝ :=
  let diff := wrapUp (wrapDown (target - current))
  current + diff * factor

/-- The `Math.atan2(y, x)` function on reals. -/
noncomputable def atan2 (y x : ℝ) : ℝ :=
  if 0 < x then Real.arctan (y / x)
  else if x < 0 then
    (if 0 ≤ y then Real.arctan (y / x) + Real.pi else Real.arctan (y / x) - Real.pi)
  else
    (if 0 < y then Real.pi / 2 else if y < 0 then -(Real.pi / 2) else 0)

/-- The `applyHoverBehavior(transform, movement, deltaSeconds)` step: overwrite
`velocity.y` with the proportional spring signal; `deltaSeconds` is unused. -/
noncomputable def applyHoverBehavior (transform : Transform) (movement : Movement)
    (deltaSeconds : ℝ) : Movement :=
  let _ := deltaSeconds
  let targetY := movement.groundY + movement.hoverHeight
  let difference := targetY - transform.position.y
  let springStrength : ℝ := 5.0
  { movement with velocity := { movement.velocity with y := difference * springStrength } }

/-- One `updateEntityMovement(entityId, deltaTime)` pass for an entity holding
`transform` and `movement`: integrate x/z position, spring `velocity.y`, damp
planar velocity, overwrite `position.y` with the bobbing formula (using the
wall-clock seconds read `Date.now() / 1000`, passed here as `clockSeconds`),
and, above the planar-speed threshold, turn `rotation.y` toward the heading. -/
noncomputable def updateEntityMovement (entityId : Nat) (transform : Transform)
    (movement : Movement) (deltaTime : ℝ) (clockSeconds : ℝ) : Transform × Movement :=
  let deltaSeconds := deltaTime / 1000
  let t1 : Transform :=
    { transform with
        position :=
          ⟨transform.position.x + movement.velocity.x * deltaSeconds,
           transform.position.y,
           transform.position.z + movement.velocity.z * deltaSeconds⟩ }
  let m1 := applyHoverBehavior t1 movement deltaSeconds
  let damping : ℝ := 0.95
  let m2 : Movement :=
    { m1 with velocity := ⟨m1.velocity.x * damping, m1.velocity.y, m1.velocity.z * damping⟩ }
  let bobFrequency : ℝ := 2.0
  let bobAmplitude : ℝ := 0.1
  let bobOffset := Real.sin (clockSeconds * bobFrequency + (entityId : ℝ)) * bobAmplitude
  let t2 : Transform :=
    { t1 with position := { t1.position with y := m2.groundY + m2.hoverHeight + bobOffset } }
  let speed := Real.sqrt (m2.velocity.x * m2.velocity.x + m2.velocity.z * m2.velocity.z)
  let t3 : Transform :=
    if 0.1 < speed then
      { t2 with
          rotation :=
            { t2.rotation with
                y := lerpAngle t2.rotation.y (atan2 m2.velocity.x m2.velocity.z)
                       (deltaSeconds * 3) } }
    else t2
  (t3, m2)

end MovementSystem

namespace AISystem

/-- The two `Math.random()` draws of `chooseNewWanderTarget` and the one of the
wander arrival branch, passed in explicitly. -/
structure WanderDraws where
  angleDraw : ℝ
  distDraw : ℝ
  intervalDraw : ℝ

/-- The `chooseNewWanderTarget(ai, transform)` method: pick a target at a random
angle and distance from the current position (`y` copied from the position) and
clamp its x/z into `[-25, 25]`. -/
noncomputable def chooseNewWanderTarget (ai : AI) (transform : Transform)
    (angleDraw distDraw : ℝ) : AI :=
  let angle := angleDraw * Real.pi * 2
  let distance := distDraw * ai.wanderRadius
  let tx := transform.position.x + Real.cos angle * distance
  let tz := transform.position.z + Real.sin angle * distance
  let maxBounds : ℝ := 25
  { ai with
      targetPosition :=
        some ⟨max (-maxBounds) (min maxBounds tx),
              transform.position.y,
              max (-maxBounds) (min maxBounds tz)⟩ }

/-- The `handleWanderBehavior` method: re-target when the timer expired (setting
`state` to `"moving"`), then, when a target exists and the state is `"moving"`,
delegate to `moveTowards`; on arrival clear the target, set `state` to `"idle"`
and re-roll the interval to `1000 + Math.random() * 3000`.  Both `Date.now()`
reads within the one call are modelled by the same `now`. -/
noncomputable def handleWanderBehavior (ai : AI) (transform : Transform)
    (movement : Movement) (deltaTime now : ℝ) (draws : WanderDraws) : AI × Movement :=
  let ai1 :=
    if ai.directionChangeInterval < now - ai.lastDirectionChange then
      { chooseNewWanderTarget ai transform draws.angleDraw draws.distDraw with
          lastDirectionChange := now
          state := "moving" }
    else ai
  match ai1.targetPosition with
  | some tp =>
      if ai1.state = "moving" then
        let r := MovementSystem.moveTowards transform movement tp deltaTime
        if r.2.2 then
          ({ ai1 with
              state := "idle"
              targetPosition := none
              directionChangeInterval := 1000 + draws.intervalDraw * 3000
              lastDirectionChange := now }, r.2.1)
        else (ai1, r.2.1)
      else (ai1, movement)
  | none => (ai1, movement)

/-- The `handleSeekBehavior` method: with a target, delegate to `moveTowards`
and on arrival switch the behavior to `"wander"` and clear the target (the
`state` field is left untouched); with no target, switch to `"wander"`. -/
noncomputable def handleSeekBehavior (ai : AI) (transform : Transform)
    (movement : Movement) (deltaTime : ℝ) : AI × Movement :=
  match ai.targetPosition with
  | some tp =>
      let r := MovementSystem.moveTowards transform movement tp deltaTime
      if r.2.2 then
        ({ ai with behavior := "wander", targetPosition := none }, r.2.1)
      else (ai, r.2.1)
  | none => ({ ai with behavior := "wander" }, movement)

/-- The `handleIdleBehavior` method: switch to `"wander"` once the timer expires. -/
noncomputable def handleIdleBehavior (ai : AI) (now : ℝ) : AI :=
  if ai.directionChangeInterval < now - ai.lastDirectionChange then
    { ai with behavior := "wander" }
  else ai

/-- The `updateEntityAI` dispatch on the `behavior` string; an unrecognized
behavior is a silent no-op. -/
noncomputable def updateEntityAI (ai : AI) (transform : Transform) (movement : Movement)
    (deltaTime now : ℝ) (draws : WanderDraws) : AI × Movement :=
  if ai.behavior = "wander" then handleWanderBehavior ai transform movement deltaTime now draws
  else if ai.behavior = "seek" then handleSeekBehavior ai transform movement deltaTime
  else if ai.behavior = "idle" then (handleIdleBehavior ai now, movement)
  else (ai, movement)

/-- The `setTarget(entityId, targetPosition)` mutator on a present `ai`
component: force seek toward the given position. -/
def setTarget (ai : AI) (targetPosition : Vec3) : AI :=
  { ai with targetPosition := some targetPosition, behavior := "seek", state := "moving" }

/-- The `setBehavior(entityId, behavior)` mutator on a present `ai` component. -/
def setBehavior (ai : AI) (behavior : String) (now : ℝ) : AI :=
  { ai with behavior := behavior, state := "idle", lastDirectionChange := now }

/-- The spec's AI target invariant: a `"moving"` sub-state implies a present
target position. -/
def AiInv (ai : AI) : Prop := ai.state = "moving" → ai.targetPosition ≠ none

end AISystem

/-- Typed payloads stored in the manager when running the full engine: the
components the two systems read, and an anonymous payload for the rest
(`mesh`, `health`), which this core never inspects. -/
inductive ComponentData where
  | transformData (t : Transform)
  | movementData (m : Movement)
  | aiData (a : AI)
  | otherData

namespace AISystem

/-- One element of the `getEntitiesInRange` result. -/
structure RangeEntry where
  entityId : Nat
  distance : ℝ
  position : Vec3

/-- The linear collection pass of `getEntitiesInRange(position, range)`: scan
the `transform` query result in store order, keep entities whose planar (XZ)
distance to `position` is at most `range`, as (id, distance, position) entries. -/
noncomputable def scanInRange (s : EntityManager ComponentData) (position : Vec3)
    (range : ℝ) : List RangeEntry :=
  let entities := getEntitiesWithComponents ComponentData s ["transform"]
  entities.filterMap fun entityId =>
    match getComponent ComponentData s entityId "transform" with
    | some (ComponentData.transformData tr) =>
        let dx := tr.position.x - position.x
        let dz := tr.position.z - position.z
        let distance := Real.sqrt (dx * dx + dz * dz)
        if distance ≤ range then some ⟨entityId, distance, tr.position⟩ else none
    | _ => none

/-- The `getEntitiesInRange(position, range)` method: the scan result, sorted
ascending by distance.  JavaScript `Array.prototype.sort` is stable (ES2019),
matching `List.mergeSort`. -/
noncomputable def getEntitiesInRange (s : EntityManager ComponentData) (position : Vec3)
    (range : ℝ) : List RangeEntry :=
  (scanInRange s position range).mergeSort fun a b => decide (a.distance ≤ b.distance)

end AISystem

/-- Planar (XZ) Euclidean distance, matching the `dx`/`dz`/`Math.sqrt`
computation of `moveTowards` and `getEntitiesInRange` (second argument minus
first argument). -/
noncomputable def planarDist (p q : Vec3) : ℝ :=
  Real.sqrt ((q.x - p.x) * (q.x - p.x) + (q.z - p.z) * (q.z - p.z))

/-- Concrete system that implements all three lifecycle hooks. -/
def sysAll : System := ⟨true, true, true⟩

/-- Concrete manager used to witness store theorems: entity 1 carries a
`health` component, one system is registered. -/
def demoState : EntityManager Nat :=
  { entities := [(1, [("health", 7)])]
    nextEntityId := 2
    componentTypes := ["health"]
    systems := [sysAll] }

/-- Concrete manager for query witnesses, inserted out of numeric id order. -/
def queryDemo : EntityManager Nat :=
  { entities := [(2, [("transform", 0)]), (1, [("transform", 0), ("movement", 1)])]
    nextEntityId := 3
    componentTypes := ["transform", "movement"]
    systems := [] }

/-- Concrete transform at the origin for movement witnesses. -/
noncomputable def originTransform : Transform := ⟨⟨0, 0, 0⟩, ⟨0, 0, 0⟩, ⟨1, 1, 1⟩⟩

/-- Concrete movement component for movement witnesses (speed 2, hover 1.5). -/
noncomputable def demoMovement : Movement := ⟨⟨0, 0, 0⟩, 2, 1.5, 0⟩

/-- Concrete seek target at planar distance 5 from the origin. -/
noncomputable def farTarget : Vec3 := ⟨3, 0, 4⟩

/-- Concrete AI component in seek mode with a target at the origin. -/
noncomputable def seekAi : AI :=
  { behavior := "seek", targetPosition := some ⟨0, 0, 0⟩, lastDirectionChange := 0,
    directionChangeInterval := 1000, wanderRadius := 10, seekRange := 15, state := "moving" }

/-- Concrete AI component at rest in idle behavior. -/
noncomputable def idleAi : AI :=
  { behavior := "idle", targetPosition := none, lastDirectionChange := 0,
    directionChangeInterval := 2000, wanderRadius := 10, seekRange := 15, state := "idle" }

/-- A transform payload positioned at planar coordinates (x, z). -/
noncomputable def transformAt (x z : ℝ) : ComponentData :=
  ComponentData.transformData ⟨⟨x, 0, z⟩, ⟨0, 0, 0⟩, ⟨1, 1, 1⟩⟩

/-- Concrete store for range-query witnesses: three entities at planar
distances 3, 4 and 10 from the origin. -/
noncomputable def rangeDemo : EntityManager ComponentData :=
  { entities :=
      [(1, [("transform", transformAt 3 0)]),
       (2, [("transform", transformAt 0 4)]),
       (3, [("transform", transformAt 10 0)])]
    nextEntityId := 4
    componentTypes := ["transform"]
    systems := [] }

/-! Lemmas about the `Map` model. -/

namespace AList

variable {κ δ : Type} [DecidableEq κ]

omit [DecidableEq κ] in
@[simp] theorem mkeys_nil : mkeys ([] : AList κ δ) = [] := rfl

omit [DecidableEq κ] in
@[simp] theorem mkeys_cons (k : κ) (v : δ) (l : AList κ δ) :
    mkeys ((k, v) :: l) = k :: mkeys l := rfl

theorem mget_mset_self (l : AList κ δ) (k : κ) (v : δ) : mget (mset l k v) k = some v := by
  induction l with
  | nil => simp [mset, mget]
  | cons p rest ih =>
      obtain ⟨k', v'⟩ := p
      by_cases h : k = k'
      · simp [mset, mget, h]
      · simp [mset, mget, h, ih]

theorem mget_mset_ne (l : AList κ δ) (k k' : κ) (v : δ) (h : k' ≠ k) :
    mget (mset l k v) k' = mget l k' := by
  induction l with
  | nil => simp [mset, mget, h]
  | cons p rest ih =>
      obtain ⟨k₀, v₀⟩ := p
      by_cases h₁ : k = k₀
      · subst h₁
        simp [mset, mget, h]
      · by_cases h₂ : k' = k₀ <;> simp [mset, mget, h₁, h₂, ih]

theorem mget_eq_none_of_not_mem_mkeys (l : AList κ δ) (k : κ) (h : k ∉ mkeys l) :
    mget l k = none := by
  induction l with
  | nil => simp [mget]
  | cons p rest ih =>
      obtain ⟨k₀, v₀⟩ := p
      simp only [mkeys_cons, List.mem_cons, not_or] at h
      simp [mget, h.1, ih h.2]

theorem mget_mdel_self (l : AList κ δ) (k : κ) (hnd : (mkeys l).Nodup) :
    mget (mdel l k) k = none := by
  induction l with
  | nil => simp [mdel, mget]
  | cons p rest ih =>
      obtain ⟨k₀, v₀⟩ := p
      simp only [mkeys_cons, List.nodup_cons] at hnd
      by_cases h : k = k₀
      · subst h
        simp only [mdel, if_pos rfl]
        exact mget_eq_none_of_not_mem_mkeys rest k hnd.1
      · simp [mdel, mget, h, ih hnd.2]

theorem mget_mdel_ne (l : AList κ δ) (k k' : κ) (h : k' ≠ k) :
    mget (mdel l k) k' = mget l k' := by
  induction l with
  | nil => simp [mdel, mget]
  | cons p rest ih =>
      obtain ⟨k₀, v₀⟩ := p
      by_cases h₁ : k = k₀
      · subst h₁
        simp [mdel, mget, h]
      · by_cases h₂ : k' = k₀ <;> simp [mdel, mget, h₁, h₂, ih]

theorem mdel_of_mget_none (l : AList κ δ) (k : κ) (h : mget l k = none) : mdel l k = l := by
  induction l with
  | nil => simp [mdel]
  | cons p rest ih =>
      obtain ⟨k₀, v₀⟩ := p
      by_cases h₁ : k = k₀
      · subst h₁; simp [mget] at h
      · simp only [mget, if_neg h₁] at h
        simp [mdel, h₁, ih h]

theorem mset_of_mget_none (l : AList κ δ) (k : κ) (v : δ) (h : mget l k = none) :
    mset l k v = l ++ [(k, v)] := by
  induction l with
  | nil => simp [mset]
  | cons p rest ih =>
      obtain ⟨k₀, v₀⟩ := p
      by_cases h₁ : k = k₀
      · subst h₁; simp [mget] at h
      · simp only [mget, if_neg h₁] at h
        simp [mset, h₁, ih h]

theorem mkeys_mset_of_mget_none (l : AList κ δ) (k : κ) (v : δ) (h : mget l k = none) :
    mkeys (mset l k v) = mkeys l ++ [k] := by
  rw [mset_of_mget_none l k v h]
  simp [mkeys]

theorem mkeys_mdel_sublist (l : AList κ δ) (k : κ) : (mkeys (mdel l k)).Sublist (mkeys l) := by
  induction l with
  | nil => simp [mdel]
  | cons p rest ih =>
      obtain ⟨k₀, v₀⟩ := p
      by_cases h : k = k₀
      · simp only [mdel, if_pos h, mkeys_cons]
        exact List.sublist_cons_self k₀ (mkeys rest)
      · simp only [mdel, if_neg h, mkeys_cons]
        exact ih.cons₂ k₀

theorem mget_eq_some_of_mem (l : AList κ δ) (k : κ) (v : δ)
    (hnd : (mkeys l).Nodup) (hm : (k, v) ∈ l) : mget l k = some v := by
  induction l with
  | nil => simp at hm
  | cons p rest ih =>
      obtain ⟨k₀, v₀⟩ := p
      simp only [mkeys_cons, List.nodup_cons] at hnd
      rcases List.mem_cons.mp hm with h | h
      · rw [Prod.ext_iff] at h
        obtain ⟨h₁, h₂⟩ := h
        simp only at h₁ h₂
        simp [mget, h₁, h₂]
      · have hk : k ≠ k₀ := by
          intro he
          subst he
          exact hnd.1 (List.mem_map.mpr ⟨(k, v), h, rfl⟩)
        simp [mget, hk, ih hnd.2 h]

theorem mem_of_mget_eq_some (l : AList κ δ) (k : κ) (v : δ)
    (h : mget l k = some v) : (k, v) ∈ l := by
  induction l with
  | nil => simp [mget] at h
  | cons p rest ih =>
      obtain ⟨k₀, v₀⟩ := p
      by_cases h₁ : k = k₀
      · subst h₁
        have h' : v₀ = v := by simpa [mget] using h
        subst h'
        exact List.mem_cons_self _ _
      · simp only [mget, if_neg h₁] at h
        exact List.mem_cons_of_mem _ (ih h)

end AList

/-! Helper lemmas about the manager operations. -/

/-- A filterMap whose function is a guarded `some` is a filter followed by a map. -/
theorem filterMap_guard_eq {α β : Type} (l : List α) (c : α → Bool) (f : α → β) :
    (l.filterMap fun a => if c a then some (f a) else none) = (l.filter c).map f := by
  induction l with
  | nil => rfl
  | cons a rest ih =>
      by_cases h : c a = true <;> simp [List.filterMap_cons, List.filter_cons, h, ih]

/-- C10: a falsy caller-supplied id (0) is ignored: `createEntity` allocates the
auto-incremented id (allocator starting at 1), identically to supplying no id,
and never returns 0. -/
theorem createEntity_falsy_id_allocates (δ : Type) (s : EntityManager δ)
    (h : 0 < s.nextEntityId) :
    (createEntity δ s (some 0)).1 = s.nextEntityId ∧
    (createEntity δ s (some 0)).1 ≠ 0 ∧
    createEntity δ s (some 0) = createEntity δ s none ∧
    (initial δ).nextEntityId = 1 := by
  have h1 : (createEntity δ s (some 0)).1 = s.nextEntityId := rfl
  refine ⟨h1, ?_, rfl, rfl⟩
  rw [h1]
  omega

/-- C10 witness: the theorem applied to the fresh manager. -/
theorem createEntity_falsy_id_allocates_witness :
    (createEntity Nat (initial Nat) (some 0)).1 = (initial Nat).nextEntityId ∧
    (createEntity Nat (initial Nat) (some 0)).1 ≠ 0 ∧
    createEntity Nat (initial Nat) (some 0) = createEntity Nat (initial Nat) none ∧
    (initial Nat).nextEntityId = 1 :=
  createEntity_falsy_id_allocates Nat (initial Nat) (by decide)

/-- C4: `destroyEntity` deletes the entity's component set (a state no-op when
the id is absent, with no error), leaves the rest of the state alone, and
always fires one entity-destroyed event per hooked registered system, in
registration order, regardless of whether the id existed. -/
theorem destroyEntity_spec (δ : Type) (s : EntityManager δ) (id : Nat) :
    (destroyEntity δ s id).1.entities = mdel s.entities id ∧
    (destroyEntity δ s id).1.nextEntityId = s.nextEntityId ∧
    (destroyEntity δ s id).1.componentTypes = s.componentTypes ∧
    (destroyEntity δ s id).1.systems = s.systems ∧
    (mget s.entities id = none → (destroyEntity δ s id).1 = s) ∧
    (destroyEntity δ s id).2 =
      ((s.systems.enum.filter fun p => p.2.hasOnEntityDestroyed).map
        fun p => Event.entityDestroyed p.1 id) := by
  refine ⟨rfl, rfl, rfl, rfl, ?_, ?_⟩
  · intro h
    show { s with entities := mdel s.entities id } = s
    rw [mdel_of_mget_none s.entities id h]
  · exact filterMap_guard_eq _ _ _

/-- C4 witness: destroying the absent id 5 in the demo manager. -/
theorem destroyEntity_spec_witness :
    (destroyEntity Nat demoState 5).1.entities = mdel demoState.entities 5 ∧
    (destroyEntity Nat demoState 5).1.nextEntityId = demoState.nextEntityId ∧
    (destroyEntity Nat demoState 5).1.componentTypes = demoState.componentTypes ∧
    (destroyEntity Nat demoState 5).1.systems = demoState.systems ∧
    (mget demoState.entities 5 = none → (destroyEntity Nat demoState 5).1 = demoState) ∧
    (destroyEntity Nat demoState 5).2 =
      ((demoState.systems.enum.filter fun p => p.2.hasOnEntityDestroyed).map
        fun p => Event.entityDestroyed p.1 5) :=
  destroyEntity_spec Nat demoState 5

/-- C5: `addComponent` on a missing entity errors (with the store untouched, no
events); on a present entity it stores the data under the variant, silently
overwriting, changes nothing else, and fires exactly one component-added event
per hooked registered system, in registration order, with no removed event. -/
theorem addComponent_spec (δ : Type) (s : EntityManager δ) (id : Nat)
    (v : String) (d : δ) :
    (mget s.entities id = none →
      addComponent δ s id v d =
        Except.error ("Entity " ++ toString id ++ " does not exist")) ∧
    (∀ comps, mget s.entities id = some comps →
      ∃ s' evs, addComponent δ s id v d = Except.ok (s', evs) ∧
        getComponent δ s' id v = some d ∧
        (∀ v', v' ≠ v → getComponent δ s' id v' = getComponent δ s id v') ∧
        (∀ id', id' ≠ id → mget s'.entities id' = mget s.entities id') ∧
        s'.nextEntityId = s.nextEntityId ∧
        s'.systems = s.systems ∧
        s'.componentTypes = ctAdd s.componentTypes v ∧
        evs = ((s.systems.enum.filter fun p => p.2.hasOnComponentAdded).map
          fun p => Event.componentAdded p.1 id v d) ∧
        (∀ e ∈ evs, ∀ i j w, e ≠ Event.componentRemoved i j w)) := by
  constructor
  · intro h
    simp only [addComponent, h]
  · intro comps h
    refine
      ⟨{ s with
          componentTypes := ctAdd s.componentTypes v
          entities := mset s.entities id (mset comps v d) },
       s.systems.enum.filterMap fun p =>
         if p.2.hasOnComponentAdded then
           some (Event.componentAdded p.1 id v d)
         else none,
       by simp only [addComponent, h], ?_, ?_, ?_, rfl, rfl, rfl, ?_, ?_⟩
    · simp only [getComponent, mget_mset_self]
    · intro v' hv
      simp only [getComponent, mget_mset_self, h, mget_mset_ne comps v v' d hv]
    · intro id' hid
      exact mget_mset_ne s.entities id id' _ hid
    · exact filterMap_guard_eq _ _ _
    · intro e he i j w
      rw [filterMap_guard_eq] at he
      obtain ⟨p, _, rfl⟩ := List.mem_map.mp he
      intro hc
      cases hc

/-- C5 witness: adding a `transform` to the present entity 1 of the demo manager. -/
theorem addComponent_spec_witness :
    (mget demoState.entities 1 = none →
      addComponent Nat demoState 1 "transform" 3 =
        Except.error ("Entity " ++ toString 1 ++ " does not exist")) ∧
    (∀ comps, mget demoState.entities 1 = some comps →
      ∃ s' evs, addComponent Nat demoState 1 "transform" 3 = Except.ok (s', evs) ∧
        getComponent Nat s' 1 "transform" = some 3 ∧
        (∀ v', v' ≠ "transform" →
          getComponent Nat s' 1 v' = getComponent Nat demoState 1 v') ∧
        (∀ id', id' ≠ 1 → mget s'.entities id' = mget demoState.entities id') ∧
        s'.nextEntityId = demoState.nextEntityId ∧
        s'.systems = demoState.systems ∧
        s'.componentTypes = ctAdd demoState.componentTypes "transform" ∧
        evs = ((demoState.systems.enum.filter fun p => p.2.hasOnComponentAdded).map
          fun p => Event.componentAdded p.1 1 "transform" 3) ∧
        (∀ e ∈ evs, ∀ i j w, e ≠ Event.componentRemoved i j w)) :=
  addComponent_spec Nat demoState 1 "transform" 3

/-- C1 counterexample: entity 1 of the demo manager exists but holds no
`transform` component, yet `removeComponent` fires the component-removed
notification to the registered system instead of being notification-free. -/
theorem removeComponent_missing_component_notifies :
    hasComponent Nat demoState 1 "transform" = false ∧
    (removeComponent Nat demoState 1 "transform").2 =
      [Event.componentRemoved 0 1 "transform"] := by
  constructor
  · decide
  · decide

/-- C1 amended: `removeComponent` is an event-free no-op only when the entity id
is absent; when the entity exists it deletes the variant entry (a map no-op if
the variant is absent) and always fires one component-removed event per hooked
registered system, in registration order, even if no component was deleted. -/
theorem removeComponent_spec (δ : Type) (s : EntityManager δ) (id : Nat) (v : String) :
    (mget s.entities id = none → removeComponent δ s id v = (s, [])) ∧
    (∀ comps, mget s.entities id = some comps →
      (removeComponent δ s id v).1.entities = mset s.entities id (mdel comps v) ∧
      (removeComponent δ s id v).1.nextEntityId = s.nextEntityId ∧
      (removeComponent δ s id v).1.componentTypes = s.componentTypes ∧
      (removeComponent δ s id v).1.systems = s.systems ∧
      (∀ id', id' ≠ id →
        mget (removeComponent δ s id v).1.entities id' = mget s.entities id') ∧
      (removeComponent δ s id v).2 =
        ((s.systems.enum.filter fun p => p.2.hasOnComponentRemoved).map
          fun p => Event.componentRemoved p.1 id v)) := by
  constructor
  · intro h
    simp only [removeComponent, h]
  · intro comps h
    refine ⟨?_, ?_, ?_, ?_, ?_, ?_⟩
    · simp only [removeComponent, h]
    · simp only [removeComponent, h]
    · simp only [removeComponent, h]
    · simp only [removeComponent, h]
    · intro id' hid
      simp only [removeComponent, h]
      exact mget_mset_ne s.entities id id' _ hid
    · simp only [removeComponent, h]
      exact filterMap_guard_eq _ _ _

/-- C1 amended witness: removing the absent `transform` variant from the
present entity 1 of the demo manager. -/
theorem removeComponent_spec_witness :
    (mget demoState.entities 1 = none →
      removeComponent Nat demoState 1 "transform" = (demoState, [])) ∧
    (∀ comps, mget demoState.entities 1 = some comps →
      (removeComponent Nat demoState 1 "transform").1.entities =
        mset demoState.entities 1 (mdel comps "transform") ∧
      (removeComponent Nat demoState 1 "transform").1.nextEntityId =
        demoState.nextEntityId ∧
      (removeComponent Nat demoState 1 "transform").1.componentTypes =
        demoState.componentTypes ∧
      (removeComponent Nat demoState 1 "transform").1.systems = demoState.systems ∧
      (∀ id', id' ≠ 1 →
        mget (removeComponent Nat demoState 1 "transform").1.entities id' =
          mget demoState.entities id') ∧
      (removeComponent Nat demoState 1 "transform").2 =
        ((demoState.systems.enum.filter fun p => p.2.hasOnComponentRemoved).map
          fun p => Event.componentRemoved p.1 1 "transform")) :=
  removeComponent_spec Nat demoState 1 "transform"


/-- The allocator invariant holds for the fresh manager. -/
theorem storeInv_initial (δ : Type) : StoreInv δ (initial δ) := by
  refine ⟨Nat.one_pos, ?_, ?_⟩ <;> simp [initial, mkeys]

/-- Auto-allocating creation takes the counter path, returns an id that is not
live, and preserves the allocator invariant. -/
theorem storeInv_createEntity_auto (δ : Type) (s : EntityManager δ)
    (h : StoreInv δ s) (id : Option Nat)
    (hid : (match id with | some n => n == 0 | none => true) = true) :
    createEntity δ s id =
      (s.nextEntityId,
        { s with
            nextEntityId := s.nextEntityId + 1
            entities := mset s.entities s.nextEntityId [] }) ∧
    s.nextEntityId ∉ mkeys s.entities ∧
    StoreInv δ (createEntity δ s id).2 := by
  obtain ⟨h1, h2, h3⟩ := h
  have hfresh : s.nextEntityId ∉ mkeys s.entities := fun hmem =>
    absurd (h2 s.nextEntityId hmem).2 (lt_irrefl _)
  have hnone : mget s.entities s.nextEntityId = none :=
    mget_eq_none_of_not_mem_mkeys s.entities s.nextEntityId hfresh
  have hauto : createEntity δ s id =
      (s.nextEntityId,
        { s with
            nextEntityId := s.nextEntityId + 1
            entities := mset s.entities s.nextEntityId [] }) := by
    match id with
    | none => rfl
    | some n =>
        have hn : n = 0 := by simpa using hid
        subst hn
        rfl
  refine ⟨hauto, hfresh, ?_⟩
  rw [hauto]
  refine ⟨Nat.succ_pos _, ?_, ?_⟩
  · show ∀ id ∈ mkeys (mset s.entities s.nextEntityId []), 0 < id ∧ id < s.nextEntityId + 1
    intro i hi
    rw [mkeys_mset_of_mget_none s.entities s.nextEntityId [] hnone] at hi
    rcases List.mem_append.mp hi with hi | hi
    · have := h2 i hi
      omega
    · have : i = s.nextEntityId := by simpa using hi
      omega
  · show (mkeys (mset s.entities s.nextEntityId [])).Nodup
    rw [mkeys_mset_of_mget_none s.entities s.nextEntityId [] hnone]
    simp [List.nodup_append, h3, hfresh]

/-- Destruction preserves the allocator invariant. -/
theorem storeInv_destroyEntity (δ : Type) (s : EntityManager δ)
    (h : StoreInv δ s) (id : Nat) : StoreInv δ (destroyEntity δ s id).1 := by
  obtain ⟨h1, h2, h3⟩ := h
  refine ⟨h1, ?_, ?_⟩
  · intro i hi
    exact h2 i ((mkeys_mdel_sublist s.entities id).mem hi)
  · exact h3.sublist (mkeys_mdel_sublist s.entities id)

/-- Running an auto-only operation sequence preserves the allocator invariant. -/
theorem storeInv_runOps (δ : Type) (ops : List StoreOp) :
    autoOnly ops = true →
    ∀ s : EntityManager δ, StoreInv δ s → StoreInv δ (runOps δ s ops) := by
  induction ops with
  | nil =>
      intro _ s h
      exact h
  | cons op rest ih =>
      intro hauto s h
      cases op with
      | create id =>
          cases id with
          | none =>
              have hcond : autoOnly rest = true := by
                simpa [autoOnly, List.all_cons] using hauto
              exact ih hcond _ (storeInv_createEntity_auto δ s h none rfl).2.2
          | some n =>
              have hcond : n = 0 ∧ autoOnly rest = true := by
                simpa [autoOnly, List.all_cons] using hauto
              refine ih hcond.2 _ (storeInv_createEntity_auto δ s h (some n) ?_).2.2
              simp [hcond.1]
      | destroy id =>
          have hcond : autoOnly rest = true := by
            simpa [autoOnly, List.all_cons] using hauto
          exact ih hcond _ (storeInv_destroyEntity δ s h id)

/-- C2 counterexample: after one auto-allocated entity (live id 1),
`createEntity` with caller-supplied id 1 returns the id of that live entity. -/
theorem createEntity_supplied_id_collides :
    (createEntity Nat (runOps Nat (initial Nat) [StoreOp.create none]) (some 1)).1 = 1 ∧
    1 ∈ mkeys (runOps Nat (initial Nat) [StoreOp.create none]).entities := by
  decide

/-- C2 amended: along any sequence of create/destroy operations in which every
create lets the store auto-allocate, live ids stay pairwise distinct, every
live id is below the monotone allocator counter (so destroyed ids are never
handed out again), and the next auto-allocated creation returns a non-live id
and touches no other entity's component set. -/
theorem createEntity_auto_unique (δ : Type) (ops : List StoreOp)
    (hauto : autoOnly ops = true) :
    let s := runOps δ (initial δ) ops
    let r := createEntity δ s none
    (mkeys s.entities).Nodup ∧
    r.1 ∉ mkeys s.entities ∧
    r.1 = s.nextEntityId ∧
    mget r.2.entities r.1 = some [] ∧
    (∀ id', id' ≠ r.1 → mget r.2.entities id' = mget s.entities id') ∧
    s.nextEntityId < r.2.nextEntityId ∧
    (∀ id ∈ mkeys s.entities, id < s.nextEntityId) := by
  intro s r
  have hinv := storeInv_runOps δ ops hauto (initial δ) (storeInv_initial δ)
  obtain ⟨h1, h2, h3⟩ := hinv
  have hstep := storeInv_createEntity_auto δ s ⟨h1, h2, h3⟩ none rfl
  have hr : r = (s.nextEntityId,
      { s with
          nextEntityId := s.nextEntityId + 1
          entities := mset s.entities s.nextEntityId [] }) := hstep.1
  refine ⟨h3, ?_, ?_, ?_, ?_, ?_, ?_⟩
  · rw [hr]
    exact hstep.2.1
  · rw [hr]
  · rw [hr]
    exact mget_mset_self s.entities s.nextEntityId []
  · intro id' hne
    rw [hr] at hne ⊢
    exact mget_mset_ne s.entities s.nextEntityId id' [] hne
  · rw [hr]
    exact Nat.lt_succ_self _
  · intro i hi
    exact (h2 i hi).2

/-- C2 amended witness: create, destroy, create, all auto-allocated. -/
theorem createEntity_auto_unique_witness :
    autoOnly [StoreOp.create none, StoreOp.destroy 1, StoreOp.create none] = true ∧
    (let s := runOps Nat (initial Nat)
      [StoreOp.create none, StoreOp.destroy 1, StoreOp.create none]
     let r := createEntity Nat s none
     (mkeys s.entities).Nodup ∧
     r.1 ∉ mkeys s.entities ∧
     r.1 = s.nextEntityId ∧
     mget r.2.entities r.1 = some [] ∧
     (∀ id', id' ≠ r.1 → mget r.2.entities id' = mget s.entities id') ∧
     s.nextEntityId < r.2.nextEntityId ∧
     (∀ id ∈ mkeys s.entities, id < s.nextEntityId)) :=
  ⟨by decide,
   createEntity_auto_unique Nat
     [StoreOp.create none, StoreOp.destroy 1, StoreOp.create none] (by decide)⟩

/-- Membership in the query result is liveness plus `hasComponent` for every
requested variant. -/
theorem mem_getEntitiesWithComponents (δ : Type) (s : EntityManager δ)
    (vs : List String) (hnd : (mkeys s.entities).Nodup) (id : Nat) :
    id ∈ getEntitiesWithComponents δ s vs ↔
      ((mget s.entities id).isSome = true ∧ ∀ v ∈ vs, hasComponent δ s id v = true) := by
  constructor
  · intro hmem
    rw [getEntitiesWithComponents] at hmem
    obtain ⟨⟨pid, pcomps⟩, hp, hfp⟩ := List.mem_filterMap.mp hmem
    by_cases hc : (vs.all fun t => (mget pcomps t).isSome) = true
    · rw [if_pos hc] at hfp
      obtain rfl : pid = id := by simpa using hfp
      have hget : mget s.entities pid = some pcomps :=
        mget_eq_some_of_mem s.entities pid pcomps hnd hp
      refine ⟨by rw [hget]; rfl, ?_⟩
      intro v hv
      have hall := List.all_eq_true.mp hc v hv
      simp only [hasComponent, hget]
      simpa [mhas] using hall
    · rw [if_neg hc] at hfp
      cases hfp
  · rintro ⟨hsome, hall⟩
    obtain ⟨comps, hcomps⟩ := Option.isSome_iff_exists.mp hsome
    have hmem : (id, comps) ∈ s.entities := mem_of_mget_eq_some s.entities id comps hcomps
    rw [getEntitiesWithComponents]
    apply List.mem_filterMap.mpr
    refine ⟨(id, comps), hmem, ?_⟩
    have hc : (vs.all fun t => (mget comps t).isSome) = true := by
      apply List.all_eq_true.mpr
      intro v hv
      have hv2 := hall v hv
      simp only [hasComponent, hcomps] at hv2
      simpa [mhas] using hv2
    rw [if_pos hc]

/-- C8: the query returns, in the entity map's insertion order, exactly the ids
of live entities holding every requested variant, recomputed from the current
state: membership is equivalent to liveness plus `hasComponent` for each
requested variant. -/
theorem getEntitiesWithComponents_spec (δ : Type) (s : EntityManager δ)
    (vs : List String) (hnd : (mkeys s.entities).Nodup) :
    getEntitiesWithComponents δ s vs =
      ((s.entities.filter fun p => vs.all fun t => (mget p.2 t).isSome).map Prod.fst) ∧
    (∀ id, id ∈ getEntitiesWithComponents δ s vs ↔
      ((mget s.entities id).isSome = true ∧ ∀ v ∈ vs, hasComponent δ s id v = true)) :=
  ⟨filterMap_guard_eq _ _ _, fun id => mem_getEntitiesWithComponents δ s vs hnd id⟩

/-- C8 witness: querying `transform` on the out-of-order demo store. -/
theorem getEntitiesWithComponents_spec_witness :
    getEntitiesWithComponents Nat queryDemo ["transform"] =
      ((queryDemo.entities.filter fun p =>
        ["transform"].all fun t => (mget p.2 t).isSome).map Prod.fst) ∧
    (∀ id, id ∈ getEntitiesWithComponents Nat queryDemo ["transform"] ↔
      ((mget queryDemo.entities id).isSome = true ∧
        ∀ v ∈ ["transform"], hasComponent Nat queryDemo id v = true)) :=
  getEntitiesWithComponents_spec Nat queryDemo ["transform"] (by decide)

/-! Lemmas about `moveTowards`. -/

/-- The `moveTowards` primitive never changes the transform. -/
theorem moveTowards_fst (t : Transform) (m : Movement) (tgt : Vec3) (dt : ℝ) :
    (MovementSystem.moveTowards t m tgt dt).1 = t := by
  simp only [MovementSystem.moveTowards]
  split <;> rfl

/-- At planar distance at most 0.1, `moveTowards` applies nothing and reports
arrival. -/
theorem moveTowards_eq_of_le (t : Transform) (m : Movement) (tgt : Vec3) (dt : ℝ)
    (h : planarDist t.position tgt ≤ 0.1) :
    MovementSystem.moveTowards t m tgt dt = (t, m, true) := by
  simp only [MovementSystem.moveTowards]
  split
  · rename_i hc
    exact absurd hc (not_lt.mpr h)
  · rfl

/-- Above planar distance 0.1, `moveTowards` applies `direction * speed` as a
force and reports non-arrival. -/
theorem moveTowards_eq_of_lt (t : Transform) (m : Movement) (tgt : Vec3) (dt : ℝ)
    (h : 0.1 < planarDist t.position tgt) :
    MovementSystem.moveTowards t m tgt dt =
      (t, MovementSystem.applyForce m
        ⟨(tgt.x - t.position.x) / planarDist t.position tgt * m.speed, 0,
         (tgt.z - t.position.z) / planarDist t.position tgt * m.speed⟩, false) := by
  simp only [MovementSystem.moveTowards]
  split
  · rfl
  · rename_i hc
    exact absurd h hc

/-- The arrival flag of `moveTowards` is equivalent to the planar distance
being at most 0.1. -/
theorem moveTowards_arrived_iff (t : Transform) (m : Movement) (tgt : Vec3) (dt : ℝ) :
    ((MovementSystem.moveTowards t m tgt dt).2.2 = true) ↔
      planarDist t.position tgt ≤ 0.1 := by
  simp only [MovementSystem.moveTowards]
  split
  · rename_i hc
    constructor
    · intro hfalse
      exact Bool.noConfusion hfalse
    · intro hle
      exact absurd hc (not_lt.mpr hle)
  · rename_i hc
    constructor
    · intro _
      exact not_lt.mp hc
    · intro _
      rfl

/-- C6: for an entity holding `transform` and `movement`, `moveTowards` leaves
the position unchanged, reports arrival with no force applied at planar
distance at most 0.1, applies `direction * speed` via `applyForce` and reports
non-arrival above it, and its flag is `true` exactly when the post-state planar
distance is at most 0.1. -/
theorem moveTowards_spec (t : Transform) (m : Movement) (tgt : Vec3) (dt : ℝ) :
    (MovementSystem.moveTowards t m tgt dt).1 = t ∧
    (planarDist t.position tgt ≤ 0.1 →
      MovementSystem.moveTowards t m tgt dt = (t, m, true)) ∧
    (0.1 < planarDist t.position tgt →
      MovementSystem.moveTowards t m tgt dt =
        (t, MovementSystem.applyForce m
          ⟨(tgt.x - t.position.x) / planarDist t.position tgt * m.speed, 0,
           (tgt.z - t.position.z) / planarDist t.position tgt * m.speed⟩, false)) ∧
    ((MovementSystem.moveTowards t m tgt dt).2.2 = true ↔
      planarDist (MovementSystem.moveTowards t m tgt dt).1.position tgt ≤ 0.1) := by
  refine ⟨moveTowards_fst t m tgt dt, moveTowards_eq_of_le t m tgt dt,
    moveTowards_eq_of_lt t m tgt dt, ?_⟩
  rw [moveTowards_fst t m tgt dt]
  exact moveTowards_arrived_iff t m tgt dt

/-- C6 witness: from the origin toward (3, 0, 4) — planar distance 5 — the call
reports non-arrival and leaves the transform unchanged. -/
theorem moveTowards_spec_witness :
    (MovementSystem.moveTowards originTransform demoMovement farTarget 16).2.2 = false ∧
    (MovementSystem.moveTowards originTransform demoMovement farTarget 16).1
      = originTransform := by
  have hd : planarDist originTransform.position farTarget = 5 := by
    have h25 : (farTarget.x - originTransform.position.x) *
        (farTarget.x - originTransform.position.x) +
        (farTarget.z - originTransform.position.z) *
        (farTarget.z - originTransform.position.z) = 25 := by
      norm_num [farTarget, originTransform]
    rw [planarDist, h25, show (25 : ℝ) = 5 ^ 2 by norm_num,
      Real.sqrt_sq (by norm_num : (0 : ℝ) ≤ 5)]
  have h := moveTowards_spec originTransform demoMovement farTarget 16
  have h3 := h.2.2.1 (by rw [hd]; norm_num)
  refine ⟨?_, h.1⟩
  rw [h3]

/-- C7: one `updateEntityMovement` pass performs exactly the documented steps:
x/z integration by `velocity * dt/1000`, `velocity.y` spring overwrite from the
pre-overwrite height, 0.95 damping of planar velocity, closed-form `position.y`
bobbing overwrite, and (only above post-damping planar speed 0.1) shortest-angle
interpolation of `rotation.y` toward `atan2(velocity.x, velocity.z)` with factor
`dt/1000 * 3`; all other fields are unchanged. -/
theorem updateEntityMovement_spec (entityId : Nat) (t : Transform) (m : Movement)
    (dt clock : ℝ) :
    (MovementSystem.updateEntityMovement entityId t m dt clock).1.position.x
        = t.position.x + m.velocity.x * (dt / 1000) ∧
    (MovementSystem.updateEntityMovement entityId t m dt clock).1.position.z
        = t.position.z + m.velocity.z * (dt / 1000) ∧
    (MovementSystem.updateEntityMovement entityId t m dt clock).2.velocity.y
        = (m.groundY + m.hoverHeight - t.position.y) * 5.0 ∧
    (MovementSystem.updateEntityMovement entityId t m dt clock).2.velocity.x
        = m.velocity.x * 0.95 ∧
    (MovementSystem.updateEntityMovement entityId t m dt clock).2.velocity.z
        = m.velocity.z * 0.95 ∧
    (MovementSystem.updateEntityMovement entityId t m dt clock).1.position.y
        = m.groundY + m.hoverHeight + Real.sin (clock * 2.0 + (entityId : ℝ)) * 0.1 ∧
    (0.1 < Real.sqrt (m.velocity.x * 0.95 * (m.velocity.x * 0.95)
        + m.velocity.z * 0.95 * (m.velocity.z * 0.95)) →
      (MovementSystem.updateEntityMovement entityId t m dt clock).1.rotation.y
        = MovementSystem.lerpAngle t.rotation.y
            (MovementSystem.atan2 (m.velocity.x * 0.95) (m.velocity.z * 0.95))
            (dt / 1000 * 3)) ∧
    (¬ 0.1 < Real.sqrt (m.velocity.x * 0.95 * (m.velocity.x * 0.95)
        + m.velocity.z * 0.95 * (m.velocity.z * 0.95)) →
      (MovementSystem.updateEntityMovement entityId t m dt clock).1.rotation.y
        = t.rotation.y) ∧
    (MovementSystem.updateEntityMovement entityId t m dt clock).1.rotation.x
        = t.rotation.x ∧
    (MovementSystem.updateEntityMovement entityId t m dt clock).1.rotation.z
        = t.rotation.z ∧
    (MovementSystem.updateEntityMovement entityId t m dt clock).1.scale = t.scale ∧
    (MovementSystem.updateEntityMovement entityId t m dt clock).2.speed = m.speed ∧
    (MovementSystem.updateEntityMovement entityId t m dt clock).2.hoverHeight
        = m.hoverHeight ∧
    (MovementSystem.updateEntityMovement entityId t m dt clock).2.groundY = m.groundY := by
  refine ⟨?_, ?_, rfl, rfl, rfl, ?_, ?_, ?_, ?_, ?_, ?_, rfl, rfl, rfl⟩
  · simp only [MovementSystem.updateEntityMovement, MovementSystem.applyHoverBehavior]
    split <;> rfl
  · simp only [MovementSystem.updateEntityMovement, MovementSystem.applyHoverBehavior]
    split <;> rfl
  · simp only [MovementSystem.updateEntityMovement, MovementSystem.applyHoverBehavior]
    split <;> rfl
  · intro h
    simp only [MovementSystem.updateEntityMovement, MovementSystem.applyHoverBehavior]
    split
    · rfl
    · rename_i hc
      exact absurd h hc
  · intro h
    simp only [MovementSystem.updateEntityMovement, MovementSystem.applyHoverBehavior]
    split
    · rename_i hc
      exact absurd hc h
    · rfl
  · simp only [MovementSystem.updateEntityMovement, MovementSystem.applyHoverBehavior]
    split <;> rfl
  · simp only [MovementSystem.updateEntityMovement, MovementSystem.applyHoverBehavior]
    split <;> rfl
  · simp only [MovementSystem.updateEntityMovement, MovementSystem.applyHoverBehavior]
    split <;> rfl

/-- C7 witness: one tick on a resting entity keeps the heading and damps the
(zero) planar velocity by 0.95. -/
theorem updateEntityMovement_spec_witness :
    (MovementSystem.updateEntityMovement 1 originTransform demoMovement 16 0).1.rotation.y
      = originTransform.rotation.y ∧
    (MovementSystem.updateEntityMovement 1 originTransform demoMovement 16 0).2.velocity.x
      = demoMovement.velocity.x * 0.95 := by
  have h := updateEntityMovement_spec 1 originTransform demoMovement 16 0
  refine ⟨?_, h.2.2.2.1⟩
  exact h.2.2.2.2.2.2.2.1 (by norm_num [demoMovement, Real.sqrt_zero])

/-- C3 counterexample: a seek entity in state `"moving"` that has reached its
target (planar distance 0) satisfies the invariant before the update, but the
update clears `targetPosition` while leaving state `"moving"`. -/
theorem seek_arrival_breaks_ai_invariant :
    AISystem.AiInv seekAi ∧
    (AISystem.updateEntityAI seekAi originTransform demoMovement 16 0 ⟨0, 0, 0⟩).1.state
      = "moving" ∧
    (AISystem.updateEntityAI seekAi originTransform demoMovement 16 0
      ⟨0, 0, 0⟩).1.targetPosition = none := by
  have harr : MovementSystem.moveTowards originTransform demoMovement ⟨0, 0, 0⟩ 16
      = (originTransform, demoMovement, true) := by
    apply moveTowards_eq_of_le
    have h0 : planarDist originTransform.position (⟨0, 0, 0⟩ : Vec3) = 0 := by
      simp [planarDist, originTransform, Real.sqrt_zero]
    rw [h0]
    norm_num
  have hupd : AISystem.updateEntityAI seekAi originTransform demoMovement 16 0 ⟨0, 0, 0⟩
      = ({ seekAi with behavior := "wander", targetPosition := none }, demoMovement) := by
    simp [AISystem.updateEntityAI, AISystem.handleSeekBehavior, seekAi, harr]
  refine ⟨?_, ?_, ?_⟩
  · intro _
    simp [seekAi]
  · rw [hupd]
    simp [seekAi]
  · rw [hupd]

/-- C3 amended: the target invariant (state `"moving"` implies a present
target) is preserved by the wander and idle updates, by `setTarget` (whose
argument is a position), by `setBehavior`, and by seek updates that do not
arrive (planar distance above 0.1) or hold no target; the seek arrival branch
is the exception, clearing the target while leaving the state `"moving"`. -/
theorem ai_target_invariant (ai : AI) (t : Transform) (m : Movement)
    (dt now : ℝ) (draws : AISystem.WanderDraws) (tp : Vec3) (b : String)
    (h : AISystem.AiInv ai) :
    AISystem.AiInv (AISystem.handleWanderBehavior ai t m dt now draws).1 ∧
    AISystem.AiInv (AISystem.handleIdleBehavior ai now) ∧
    AISystem.AiInv (AISystem.setTarget ai tp) ∧
    AISystem.AiInv (AISystem.setBehavior ai b now) ∧
    (∀ p, ai.targetPosition = some p → 0.1 < planarDist t.position p →
      AISystem.AiInv (AISystem.handleSeekBehavior ai t m dt).1) ∧
    (ai.targetPosition = none →
      AISystem.AiInv (AISystem.handleSeekBehavior ai t m dt).1) := by
  refine ⟨?_, ?_, ?_, ?_, ?_, ?_⟩
  · have hinv1 : AISystem.AiInv
        (if ai.directionChangeInterval < now - ai.lastDirectionChange then
          { AISystem.chooseNewWanderTarget ai t draws.angleDraw draws.distDraw with
              lastDirectionChange := now
              state := "moving" }
        else ai) := by
      split
      · intro _
        simp [AISystem.chooseNewWanderTarget]
      · exact h
    generalize hg : (if ai.directionChangeInterval < now - ai.lastDirectionChange then
        { AISystem.chooseNewWanderTarget ai t draws.angleDraw draws.distDraw with
            lastDirectionChange := now
            state := "moving" }
      else ai) = ai1 at hinv1
    simp only [AISystem.handleWanderBehavior]
    rw [hg]
    rcases htp : ai1.targetPosition with _ | tp'
    · simp only [htp]
      exact hinv1
    · simp only [htp]
      split
      · split
        · intro habs
          simp at habs
        · intro _
          simp [htp]
      · intro _
        simp [htp]
  · simp only [AISystem.handleIdleBehavior]
    split
    · intro hst
      exact h hst
    · exact h
  · intro _
    simp [AISystem.setTarget]
  · intro habs
    simp [AISystem.setBehavior] at habs
  · intro p hp hfar
    simp only [AISystem.handleSeekBehavior, hp]
    split
    · rename_i hc
      have hle := (moveTowards_arrived_iff t m p dt).mp hc
      exact absurd hle (not_le.mpr hfar)
    · exact h
  · intro hnone
    simp only [AISystem.handleSeekBehavior, hnone]
    intro hst
    exact absurd hnone (h hst)

/-- C3 amended witness: the theorem applied to the resting idle entity. -/
theorem ai_target_invariant_witness :
    AISystem.AiInv
      (AISystem.handleWanderBehavior idleAi originTransform demoMovement 16 0 ⟨0, 0, 0⟩).1 ∧
    AISystem.AiInv (AISystem.handleIdleBehavior idleAi 0) ∧
    AISystem.AiInv (AISystem.setTarget idleAi ⟨1, 0, 1⟩) ∧
    AISystem.AiInv (AISystem.setBehavior idleAi "wander" 0) ∧
    (∀ p, idleAi.targetPosition = some p → 0.1 < planarDist originTransform.position p →
      AISystem.AiInv (AISystem.handleSeekBehavior idleAi originTransform demoMovement 16).1) ∧
    (idleAi.targetPosition = none →
      AISystem.AiInv (AISystem.handleSeekBehavior idleAi originTransform demoMovement 16).1) :=
  ai_target_invariant idleAi originTransform demoMovement 16 0 ⟨0, 0, 0⟩ ⟨1, 0, 1⟩ "wander"
    (by intro habs; simp [idleAi] at habs)

/-! Lemmas about `getEntitiesInRange`. -/

/-- A successful `getComponent` read implies the entity is live and
`hasComponent` holds for the variant. -/
theorem getComponent_some_facts (δ : Type) (s : EntityManager δ) (entityId : Nat)
    (v : String) (d : δ) (h : getComponent δ s entityId v = some d) :
    (mget s.entities entityId).isSome = true ∧ hasComponent δ s entityId v = true := by
  simp only [getComponent] at h
  split at h
  · rename_i comps heq
    refine ⟨by rw [heq]; rfl, ?_⟩
    simp only [hasComponent, heq]
    simp [mhas, h]
  · exact Option.noConfusion h

/-- Transitivity of the distance comparator used by the range-query sort. -/
theorem rangeLe_trans (a b c : AISystem.RangeEntry)
    (h1 : decide (a.distance ≤ b.distance) = true)
    (h2 : decide (b.distance ≤ c.distance) = true) :
    decide (a.distance ≤ c.distance) = true := by
  simp only [decide_eq_true_eq] at h1 h2 ⊢
  exact le_trans h1 h2

/-- Totality of the distance comparator used by the range-query sort. -/
theorem rangeLe_total (a b : AISystem.RangeEntry) :
    (decide (a.distance ≤ b.distance) || decide (b.distance ≤ a.distance)) = true := by
  simp only [Bool.or_eq_true, decide_eq_true_eq]
  exact le_total _ _

/-- Membership in the pre-sort scan list of `getEntitiesInRange`. -/
theorem mem_scanInRange (s : EntityManager ComponentData) (pos : Vec3) (range : ℝ)
    (hnd : (mkeys s.entities).Nodup) (e : AISystem.RangeEntry) :
    e ∈ AISystem.scanInRange s pos range ↔
      ∃ tr, getComponent ComponentData s e.entityId "transform"
          = some (ComponentData.transformData tr) ∧
        e.distance = planarDist pos tr.position ∧
        e.position = tr.position ∧
        e.distance ≤ range := by
  constructor
  · intro hmem
    rw [AISystem.scanInRange] at hmem
    obtain ⟨id, hid, hfp⟩ := List.mem_filterMap.mp hmem
    split at hfp
    · rename_i tr heq
      have hfp' : (if Real.sqrt ((tr.position.x - pos.x) * (tr.position.x - pos.x) +
          (tr.position.z - pos.z) * (tr.position.z - pos.z)) ≤ range then
          some (⟨id, Real.sqrt ((tr.position.x - pos.x) * (tr.position.x - pos.x) +
            (tr.position.z - pos.z) * (tr.position.z - pos.z)), tr.position⟩ :
            AISystem.RangeEntry)
        else none) = some e := hfp
      split at hfp'
      · rename_i hle
        injection hfp' with hfp2
        subst hfp2
        exact ⟨tr, heq, rfl, rfl, hle⟩
      · exact Option.noConfusion hfp'
    · exact Option.noConfusion hfp
  · obtain ⟨eid, ed, ep⟩ := e
    rintro ⟨tr, heq, hdist, hposn, hle⟩
    simp only at heq hdist hposn hle
    subst hdist
    subst hposn
    rw [AISystem.scanInRange]
    apply List.mem_filterMap.mpr
    refine ⟨eid, ?_, ?_⟩
    · have hfacts := getComponent_some_facts ComponentData s eid "transform" _ heq
      apply (mem_getEntitiesWithComponents ComponentData s ["transform"] hnd eid).mpr
      refine ⟨hfacts.1, ?_⟩
      intro v hv
      obtain rfl : v = "transform" := by simpa using hv
      exact hfacts.2
    · simp only [heq]
      split
      · rfl
      · rename_i hgt
        exact absurd hle hgt

/-- C9: `getEntitiesInRange` is the distance-stable-sorted scan of the
`transform` carriers: the result is sorted by non-decreasing distance, an entry
appears exactly for a live transform-carrying entity within `range` (boundary
included, strictly beyond excluded), entries carry the true planar distance and
position, and entries at equal distance keep their scan order (any pair in
comparator order in the scan stays in that order in the result). -/
theorem entitiesInRange_spec (s : EntityManager ComponentData) (pos : Vec3)
    (range : ℝ) (hnd : (mkeys s.entities).Nodup) :
    AISystem.getEntitiesInRange s pos range =
      (AISystem.scanInRange s pos range).mergeSort
        (fun a b => decide (a.distance ≤ b.distance)) ∧
    List.Pairwise (fun a b => a.distance ≤ b.distance)
      (AISystem.getEntitiesInRange s pos range) ∧
    (∀ e, e ∈ AISystem.getEntitiesInRange s pos range ↔
      ∃ tr, getComponent ComponentData s e.entityId "transform"
          = some (ComponentData.transformData tr) ∧
        e.distance = planarDist pos tr.position ∧
        e.position = tr.position ∧
        e.distance ≤ range) ∧
    (∀ id tr, getComponent ComponentData s id "transform"
        = some (ComponentData.transformData tr) →
      planarDist pos tr.position ≤ range →
      ∃ e, e ∈ AISystem.getEntitiesInRange s pos range ∧ e.entityId = id ∧
        e.distance = planarDist pos tr.position ∧ e.position = tr.position) ∧
    (∀ a b, a.distance ≤ b.distance →
      List.Sublist [a, b] (AISystem.scanInRange s pos range) →
      List.Sublist [a, b] (AISystem.getEntitiesInRange s pos range)) := by
  refine ⟨rfl, ?_, ?_, ?_, ?_⟩
  · have hs := @List.sorted_mergeSort AISystem.RangeEntry
      (fun a b => decide (a.distance ≤ b.distance))
      rangeLe_trans rangeLe_total (AISystem.scanInRange s pos range)
    exact List.Pairwise.imp (fun hab => of_decide_eq_true hab) hs
  · intro e
    rw [AISystem.getEntitiesInRange, List.mem_mergeSort]
    exact mem_scanInRange s pos range hnd e
  · intro id tr heq hle
    refine ⟨⟨id, planarDist pos tr.position, tr.position⟩, ?_, rfl, rfl, rfl⟩
    rw [AISystem.getEntitiesInRange, List.mem_mergeSort]
    exact (mem_scanInRange s pos range hnd _).mpr ⟨tr, heq, rfl, rfl, hle⟩
  · intro a b hab hsub
    rw [AISystem.getEntitiesInRange]
    exact List.pair_sublist_mergeSort rangeLe_trans rangeLe_total
      (decide_eq_true hab) hsub

/-- C9 witness: querying range 4 around the origin on the three-entity store —
the entity at distance 4 sits exactly at the boundary. -/
theorem entitiesInRange_spec_witness :
    AISystem.getEntitiesInRange rangeDemo ⟨0, 0, 0⟩ 4 =
      (AISystem.scanInRange rangeDemo ⟨0, 0, 0⟩ 4).mergeSort
        (fun a b => decide (a.distance ≤ b.distance)) ∧
    List.Pairwise (fun a b => a.distance ≤ b.distance)
      (AISystem.getEntitiesInRange rangeDemo ⟨0, 0, 0⟩ 4) ∧
    (∀ e, e ∈ AISystem.getEntitiesInRange rangeDemo ⟨0, 0, 0⟩ 4 ↔
      ∃ tr, getComponent ComponentData rangeDemo e.entityId "transform"
          = some (ComponentData.transformData tr) ∧
        e.distance = planarDist ⟨0, 0, 0⟩ tr.position ∧
        e.position = tr.position ∧
        e.distance ≤ 4) ∧
    (∀ id tr, getComponent ComponentData rangeDemo id "transform"
        = some (ComponentData.transformData tr) →
      planarDist ⟨0, 0, 0⟩ tr.position ≤ 4 →
      ∃ e, e ∈ AISystem.getEntitiesInRange rangeDemo ⟨0, 0, 0⟩ 4 ∧ e.entityId = id ∧
        e.distance = planarDist ⟨0, 0, 0⟩ tr.position ∧ e.position = tr.position) ∧
    (∀ a b, a.distance ≤ b.distance →
      List.Sublist [a, b] (AISystem.scanInRange rangeDemo ⟨0, 0, 0⟩ 4) →
      List.Sublist [a, b] (AISystem.getEntitiesInRange rangeDemo ⟨0, 0, 0⟩ 4)) :=
  entitiesInRange_spec rangeDemo ⟨0, 0, 0⟩ 4 (by simp [rangeDemo, mkeys])

end ECS
